import Mathlib

/-!
Verification of the `circles` physics toy (`src/state.rs`).

The Rust source simulates circular bodies inside a circular arena:
Verlet integration with constant gravity, iterative pairwise collision
relaxation, boundary containment, a fixed-timestep accumulator driving
ticks, and user edits (spawn / remove / clear).

The `f64` arithmetic of the source is embedded into the real numbers `ℝ`;
`glam::DVec2` becomes the two-field structure `Vec2` below.  The constant
`CENTRE` of the source is computed from window constants living outside
`state.rs`, so every definition that uses it takes the arena centre as an
explicit parameter.  The thread-local random draws of `spawn` are passed
in as explicit arguments (each a uniform sample in `[0,1)`).
-/

namespace Circles

open Classical

noncomputable section

/-- Embedding of `glam::DVec2`: a 2-vector of reals. -/
@[ext]
structure Vec2 where
  x : ℝ
  y : ℝ

instance : Zero Vec2 := ⟨⟨0, 0⟩⟩

instance : Add Vec2 := ⟨fun a b => ⟨a.x + b.x, a.y + b.y⟩⟩

instance : Sub Vec2 := ⟨fun a b => ⟨a.x - b.x, a.y - b.y⟩⟩

instance : SMul ℝ Vec2 := ⟨fun r v => ⟨r * v.x, r * v.y⟩⟩

/-- Vector times scalar, as in `offset.normalize() * max_dist`. -/
instance : HMul Vec2 ℝ Vec2 := ⟨fun v r => ⟨v.x * r, v.y * r⟩⟩

/-- Vector divided by scalar, as in `(a.position + b.position) / 2.`. -/
instance : HDiv Vec2 ℝ Vec2 := ⟨fun v r => ⟨v.x / r, v.y / r⟩⟩

/-- `DVec2::length_squared`. -/
def Vec2.length_squared (v : Vec2) : ℝ := v.x * v.x + v.y * v.y

/-- `DVec2::length`. -/
def Vec2.length (v : Vec2) : ℝ := Real.sqrt v.length_squared

/-- `DVec2::distance_squared`. -/
def Vec2.distance_squared (a b : Vec2) : ℝ := (a - b).length_squared

/-- `DVec2::distance`. -/
def Vec2.distance (a b : Vec2) : ℝ := (a - b).length

/-- `DVec2::normalize`: the vector divided by its length.  On the zero
vector the `f64` code divides by zero; under the real-number embedding
this produces the junk value `0` (division by zero in `ℝ`). -/
def Vec2.normalize (v : Vec2) : Vec2 := v / v.length

/- Constants of `state.rs`. -/

def TPS : ℕ := 128

def GRAVITY : ℝ := 500

def REPETIIONS : ℕ := 4

def SMALLEST_RADIUS : ℝ := 5

def LARGEST_RADIUS : ℝ := 30

def OUTER_RADIUS : ℝ := 350

def TICK_DURATION : ℝ := 1 / (TPS : ℝ)

def TICK_GRAVITY : ℝ := GRAVITY * TICK_DURATION * TICK_DURATION

/-- Embedding of the `Circle` struct.  `colour` is cosmetic (an RGB
triple of bytes in the source) and irrelevant to the physics. -/
@[ext]
structure Circle where
  position : Vec2
  last_position : Vec2
  radius : ℝ
  colour : ℕ × ℕ × ℕ

instance : Inhabited Circle := ⟨⟨0, 0, 0, (0, 0, 0)⟩⟩

/-- `Circle::new`: both position fields start at the spawn position. -/
def Circle.new (position : Vec2) (radius : ℝ) (colour : ℕ × ℕ × ℕ) : Circle :=
  { position := position, last_position := position, radius := radius, colour := colour }

/-- `Circle::point_within`: the point-in-circle test used by removal. -/
def Circle.point_within (c : Circle) (pos : Vec2) : Prop :=
  c.position.distance_squared pos < c.radius * c.radius

/-- The integration step of `State::tick` applied to one body:
`position += position - last_position; last_position = last;
position.y += TICK_GRAVITY`. -/
def Circle.integrate (c : Circle) : Circle :=
  let last := c.position
  let p := c.position + (c.position - c.last_position)
  { c with position := ⟨p.x, p.y + TICK_GRAVITY⟩, last_position := last }

/-- The integration loop of `State::tick` over the whole body list. -/
def integrate (cs : List Circle) : List Circle := cs.map Circle.integrate

/-- The index pairs `(i, j)` with `i < j < n`, in the order the nested
`for` loops of `State::tick` visit them. -/
def pairs (n : ℕ) : List (ℕ × ℕ) :=
  (List.range n).flatMap fun i => ((List.range n).drop (i + 1)).map fun j => (i, j)

/-- The body of the pairwise collision loop for one index pair `(i, j)`:
if the bodies overlap, both are moved symmetrically about the midpoint
of their centres, along the normalized direction from `j` to `i`, to
exact contact distance. -/
def collideStep (cs : List Circle) (i j : ℕ) : List Circle :=
  let a := cs.getD i default
  let b := cs.getD j default
  let dist_sq := a.position.distance_squared b.position
  let sum_radii := a.radius + b.radius
  if dist_sq < sum_radii * sum_radii then
    let midpoint := (a.position + b.position) / (2 : ℝ)
    let offset := ((a.position - b.position).normalize * sum_radii) / (2 : ℝ)
    (cs.set i { a with position := midpoint + offset }).set j
      { b with position := midpoint - offset }
  else cs

/-- One full pairwise collision pass of `State::tick` (Gauss–Seidel:
later pairs see the updated positions of earlier pairs). -/
def collidePass (cs : List Circle) : List Circle :=
  (pairs cs.length).foldl (fun cs p => collideStep cs p.1 p.2) cs

/-- The boundary containment step of `State::tick` for one body: a body
further than `OUTER_RADIUS - radius` from the arena centre is moved back
exactly onto that circle. -/
def containCircle (centre : Vec2) (c : Circle) : Circle :=
  let max_dist := OUTER_RADIUS - c.radius
  let offset := c.position - centre
  if offset.length_squared > max_dist * max_dist then
    { c with position := offset.normalize * max_dist + centre }
  else c

/-- The containment loop of `State::tick` over the whole body list. -/
def containPass (centre : Vec2) (cs : List Circle) : List Circle :=
  cs.map (containCircle centre)

/-- One relaxation pass of `State::tick`: a pairwise collision pass
followed by the containment loop. -/
def relax (centre : Vec2) (cs : List Circle) : List Circle :=
  containPass centre (collidePass cs)

/-- `State::tick`: Verlet integration with gravity, then `REPETIIONS`
relaxation passes. -/
def tick (centre : Vec2) (cs : List Circle) : List Circle :=
  (relax centre)^[REPETIIONS] (integrate cs)

/-- The accumulator drain loop at the end of `State::update`:
`while accumulator >= TICK_DURATION { tick; accumulator -= TICK_DURATION }`.
Returns the number of ticks performed and the final accumulator. -/
def drain (acc : ℝ) : ℕ × ℝ :=
  if h : TICK_DURATION ≤ acc then
    let p := drain (acc - TICK_DURATION)
    (p.1 + 1, p.2)
  else (0, acc)
termination_by Nat.floor (acc / TICK_DURATION)
decreasing_by
  have hT : (0 : ℝ) < TICK_DURATION := by
    simp only [TICK_DURATION, TPS]
    norm_num
  have h1 : (1 : ℝ) ≤ acc / TICK_DURATION := (one_le_div hT).mpr h
  have hfl : 1 ≤ Nat.floor (acc / TICK_DURATION) := by
    exact_mod_cast Nat.le_floor (by exact_mod_cast h1)
  have : (acc - TICK_DURATION) / TICK_DURATION = acc / TICK_DURATION - 1 := by
    field_simp
  rw [this]
  calc Nat.floor (acc / TICK_DURATION - 1)
      = Nat.floor (acc / TICK_DURATION - (1 : ℕ)) := by norm_num
    _ = Nat.floor (acc / TICK_DURATION) - 1 := Nat.floor_sub_nat _ 1
    _ < Nat.floor (acc / TICK_DURATION) := by omega

/-- The tick count and final accumulator produced by a sequence of
`State::update` calls with the given frame deltas, starting from the
given accumulator value: each call adds its delta and drains. -/
def totalDrain (acc : ℝ) (ds : List ℝ) : ℕ × ℝ :=
  ds.foldl (fun p d => ((drain (p.2 + d)).1 + p.1, (drain (p.2 + d)).2)) (0, acc)

/-- The clearance fold of the spawn branch of `State::update`: starting
from `LARGEST_RADIUS`, lower the bound to any smaller clearance
`distance(existing, cursor) - existing.radius`, then to the arena
clearance `OUTER_RADIUS - distance(centre, cursor)`. -/
def spawnUpper (centre : Vec2) (cs : List Circle) (mouse : Vec2) : ℝ :=
  let upper := cs.foldl
    (fun upper c =>
      if c.position.distance mouse - c.radius < upper then
        c.position.distance mouse - c.radius
      else upper)
    LARGEST_RADIUS
  if OUTER_RADIUS - centre.distance mouse < upper then
    OUTER_RADIUS - centre.distance mouse
  else upper

/-- The spawn branch of `State::update`.  `u1`, `u2` are the two
`random()` draws (uniform in `[0,1)`); `colour` stands for the random
colour draw.  A body is pushed only when the clearance bound is still at
least `SMALLEST_RADIUS`. -/
def spawnStep (centre : Vec2) (cs : List Circle) (mouse : Vec2) (u1 u2 : ℝ)
    (colour : ℕ × ℕ × ℕ) : List Circle :=
  let lower := SMALLEST_RADIUS
  let radius := lower + max u1 u2 * (LARGEST_RADIUS - lower)
  let upper := spawnUpper centre cs mouse
  if lower ≤ upper then cs ++ [Circle.new mouse (min radius upper) colour] else cs

/-- The radius actually given to a spawned body: the random candidate
radius `radius.min(upper)` capped by the clearance bound. -/
def spawnRadius (centre : Vec2) (cs : List Circle) (mouse : Vec2) (u1 u2 : ℝ) : ℝ :=
  min (SMALLEST_RADIUS + max u1 u2 * (LARGEST_RADIUS - SMALLEST_RADIUS))
    (spawnUpper centre cs mouse)

/-- The capped spawn radius in the spec's words, to be compared with the
source's `spawnStep`: the candidate radius
`SMALLEST_RADIUS + max u1 u2 * (LARGEST_RADIUS - SMALLEST_RADIUS)`,
capped at every existing body's clearance
`distance(existing, cursor) - existing.radius` and at the arena
clearance `OUTER_RADIUS - distance(centre, cursor)`. -/
def specCappedRadius (centre : Vec2) (cs : List Circle) (mouse : Vec2) (u1 u2 : ℝ) : ℝ :=
  cs.foldl (fun u c => min u (c.position.distance mouse - c.radius))
    (min (SMALLEST_RADIUS + max u1 u2 * (LARGEST_RADIUS - SMALLEST_RADIUS))
      (OUTER_RADIUS - centre.distance mouse))

/-- Concrete body far from the origin, used to exercise the spawn
theorems. -/
def farBody : Circle :=
  { position := ⟨100, 0⟩, last_position := ⟨100, 0⟩, radius := 10, colour := (0, 0, 0) }

/-- `Vec::swap_remove`: replace the element at `i` with the last element
and pop the last element. -/
def swapRemove (cs : List Circle) (i : ℕ) : List Circle :=
  (cs.set i (cs.getD (cs.length - 1) default)).dropLast

/-- The removal loop of `State::update`: scan from index `i`, removing
(via `swap_remove`, without advancing) every body containing `mouse`. -/
def removeLoop (mouse : Vec2) (cs : List Circle) (i : ℕ) : List Circle :=
  if h : i < cs.length then
    if (cs.get ⟨i, h⟩).point_within mouse then
      removeLoop mouse (swapRemove cs i) i
    else
      removeLoop mouse cs (i + 1)
  else cs
termination_by cs.length - i
decreasing_by
  · have hlen : (swapRemove cs i).length = cs.length - 1 := by
      simp [swapRemove]
    omega
  · omega

/-- The predicate selecting the bodies the removal loop keeps: those
not containing the cursor. -/
def keep (mouse : Vec2) (c : Circle) : Bool := decide (¬ c.point_within mouse)

/-- The per-frame input snapshot: current and previous-frame state of
the three controls, plus the cursor position. -/
structure Inputs where
  clear : Bool
  lastClear : Bool
  leftMouse : Bool
  lastLeftMouse : Bool
  rightMouse : Bool
  lastRightMouse : Bool
  mouse : Vec2

/-- The `State` struct: the time accumulator and the body list. -/
structure State where
  accumulator : ℝ
  circles : List Circle

/-- `State::new`. -/
def State.new : State := { accumulator := 0, circles := [] }

/-- `State::update`: apply edge-triggered clear / spawn / remove edits in
order, then add `dt` to the accumulator and drain it tick by tick. -/
def update (centre : Vec2) (s : State) (dt : ℝ) (inp : Inputs) (u1 u2 : ℝ)
    (colour : ℕ × ℕ × ℕ) : State :=
  let cs := if inp.clear && !inp.lastClear then [] else s.circles
  let cs := if inp.leftMouse && !inp.lastLeftMouse then
      spawnStep centre cs inp.mouse u1 u2 colour
    else cs
  let cs := if inp.rightMouse && !inp.lastRightMouse then removeLoop inp.mouse cs 0 else cs
  let p := drain (s.accumulator + dt)
  { accumulator := p.2, circles := (tick centre)^[p.1] cs }

/-- The interpolation fraction exposed by `State::render`. -/
def renderFraction (s : State) : ℝ := s.accumulator / TICK_DURATION

/-- Modelled from the spec: `DVec2::normalize` applied to the zero
vector divides by a zero length, which in `f64` arithmetic yields
non-finite (NaN) components; the real-number embedding cannot represent
non-finite values, so this checked variant returns `none` exactly in
that degenerate case and `some` of the normalized vector otherwise. -/
def Vec2.normalizeChecked (v : Vec2) : Option Vec2 :=
  if v = 0 then none else some v.normalize

/-- Modelled from the spec: the collision-resolution step for one
overlapping pair, tracking finiteness of the `f64` computation through
`Option` — `none` means the source would produce non-finite positions
(the zero-length direction cannot be normalized). -/
def collideStepChecked (a b : Circle) : Option (Circle × Circle) :=
  let dist_sq := a.position.distance_squared b.position
  let sum_radii := a.radius + b.radius
  if dist_sq < sum_radii * sum_radii then
    match (a.position - b.position).normalizeChecked with
    | none => none
    | some u =>
        let midpoint := (a.position + b.position) / (2 : ℝ)
        let offset := (u * sum_radii) / (2 : ℝ)
        some ({ a with position := midpoint + offset },
              { b with position := midpoint - offset })
  else some (a, b)

/-- Concrete body used to exercise the containment theorem: at rest at
the arena centre. -/
def centreBody : Circle :=
  { position := ⟨0, 0⟩, last_position := ⟨0, 0⟩, radius := 5, colour := (0, 0, 0) }

/-- The body `centreBody` after one tick: it has fallen by one gravity
step. -/
def centreBodyTicked : Circle :=
  { position := ⟨0, TICK_GRAVITY⟩, last_position := ⟨0, 0⟩, radius := 5, colour := (0, 0, 0) }

/-- An input frame whose only rising edge is the clear control. -/
def clearFrame : Inputs :=
  { clear := true, lastClear := false, leftMouse := false, lastLeftMouse := false,
    rightMouse := false, lastRightMouse := false, mouse := 0 }

end

/-! ## Basic vector lemmas -/

@[simp] theorem Vec2.zero_x : (0 : Vec2).x = 0 := rfl

@[simp] theorem Vec2.zero_y : (0 : Vec2).y = 0 := rfl

@[simp] theorem Vec2.add_x (a b : Vec2) : (a + b).x = a.x + b.x := rfl

@[simp] theorem Vec2.add_y (a b : Vec2) : (a + b).y = a.y + b.y := rfl

@[simp] theorem Vec2.sub_x (a b : Vec2) : (a - b).x = a.x - b.x := rfl

@[simp] theorem Vec2.sub_y (a b : Vec2) : (a - b).y = a.y - b.y := rfl

@[simp] theorem Vec2.smul_x (r : ℝ) (v : Vec2) : (r • v).x = r * v.x := rfl

@[simp] theorem Vec2.smul_y (r : ℝ) (v : Vec2) : (r • v).y = r * v.y := rfl

@[simp] theorem Vec2.mul_x (v : Vec2) (r : ℝ) : (v * r).x = v.x * r := rfl

@[simp] theorem Vec2.mul_y (v : Vec2) (r : ℝ) : (v * r).y = v.y * r := rfl

@[simp] theorem Vec2.div_x (v : Vec2) (r : ℝ) : (v / r).x = v.x / r := rfl

@[simp] theorem Vec2.div_y (v : Vec2) (r : ℝ) : (v / r).y = v.y / r := rfl

theorem Vec2.sub_eq_zero_iff (a b : Vec2) : a - b = 0 ↔ a = b := by
  constructor
  · intro h
    ext
    · have := congrArg Vec2.x h
      simp at this
      linarith
    · have := congrArg Vec2.y h
      simp at this
      linarith
  · intro h
    subst h
    ext <;> simp

theorem Vec2.length_squared_nonneg (v : Vec2) : 0 ≤ v.length_squared := by
  have hx := mul_self_nonneg v.x
  have hy := mul_self_nonneg v.y
  simp only [Vec2.length_squared]
  linarith

theorem Vec2.length_nonneg (v : Vec2) : 0 ≤ v.length := Real.sqrt_nonneg _

theorem Vec2.length_squared_eq_zero_iff (v : Vec2) : v.length_squared = 0 ↔ v = 0 := by
  simp only [Vec2.length_squared]
  constructor
  · intro h
    have hx := mul_self_nonneg v.x
    have hy := mul_self_nonneg v.y
    have hx0 : v.x * v.x = 0 := by linarith
    have hy0 : v.y * v.y = 0 := by linarith
    ext
    · exact mul_self_eq_zero.mp hx0
    · exact mul_self_eq_zero.mp hy0
  · intro h
    subst h
    simp

theorem Vec2.length_eq_zero_iff (v : Vec2) : v.length = 0 ↔ v = 0 := by
  rw [Vec2.length, Real.sqrt_eq_zero (Vec2.length_squared_nonneg v),
    Vec2.length_squared_eq_zero_iff]

theorem Vec2.length_pos (v : Vec2) (h : v ≠ 0) : 0 < v.length :=
  lt_of_le_of_ne (Vec2.length_nonneg v) fun h0 =>
    h ((Vec2.length_eq_zero_iff v).mp h0.symm)

theorem Vec2.length_mul_scalar (v : Vec2) (r : ℝ) : (v * r).length = v.length * |r| := by
  have h : (v * r).length_squared = v.length_squared * (r * r) := by
    simp only [Vec2.length_squared, Vec2.mul_x, Vec2.mul_y]
    ring
  rw [Vec2.length, h, Real.sqrt_mul (Vec2.length_squared_nonneg v), ← Vec2.length,
    Real.sqrt_mul_self_eq_abs]

theorem Vec2.mul_self_length (v : Vec2) : v.length * v.length = v.length_squared :=
  Real.mul_self_sqrt (Vec2.length_squared_nonneg v)

theorem Vec2.length_normalize (v : Vec2) (h : v ≠ 0) : v.normalize.length = 1 := by
  have hL : 0 < v.length := Vec2.length_pos v h
  have hsq : v.normalize.length_squared = 1 := by
    have : v.normalize.length_squared = v.length_squared / (v.length * v.length) := by
      simp only [Vec2.normalize, Vec2.length_squared, Vec2.div_x, Vec2.div_y]
      ring
    have hsq0 : v.length_squared ≠ 0 := fun h0 => h ((Vec2.length_squared_eq_zero_iff v).mp h0)
    rw [this, Vec2.mul_self_length, div_self hsq0]
  rw [Vec2.length, hsq, Real.sqrt_one]

theorem Vec2.distance_eq_length_sub (a b : Vec2) : a.distance b = (a - b).length := rfl

theorem Vec2.distance_add_sub (m off : Vec2) :
    (m + off).distance (m - off) = (off * (2 : ℝ)).length := by
  rw [Vec2.distance_eq_length_sub]
  congr 1
  ext <;> simp <;> ring

/-! ## Collision resolution on a pair -/

/-- Claim C4: a collision-resolution step on an overlapping pair with
distinct centres relocates the two bodies symmetrically about the
midpoint of their centres, along the line connecting the centres, to a
distance of exactly the sum of the radii. -/
theorem collide_pair (a b : Circle)
    (hne : a.position ≠ b.position)
    (hov : a.position.distance_squared b.position < (a.radius + b.radius) * (a.radius + b.radius))
    (hr : 0 ≤ a.radius + b.radius) :
    let midpoint := (a.position + b.position) / (2 : ℝ)
    let offset := ((a.position - b.position).normalize * (a.radius + b.radius)) / (2 : ℝ)
    collidePass [a, b] =
      [{ a with position := midpoint + offset }, { b with position := midpoint - offset }]
    ∧ (midpoint + offset).distance (midpoint - offset) = a.radius + b.radius
    ∧ (midpoint + offset) + (midpoint - offset) = a.position + b.position := by
  intro midpoint offset
  have hu : (a.position - b.position).normalize.length = 1 :=
    Vec2.length_normalize _ fun h0 => hne ((Vec2.sub_eq_zero_iff _ _).mp h0)
  have hoff2 : offset * (2 : ℝ) = (a.position - b.position).normalize * (a.radius + b.radius) := by
    show (((a.position - b.position).normalize * (a.radius + b.radius)) / (2 : ℝ)) * (2 : ℝ) = _
    ext <;> simp
  refine ⟨?_, ?_, ?_⟩
  · show collideStep [a, b] 0 1 = _
    simp only [collideStep, List.getD_cons_zero, List.getD_cons_succ]
    rw [if_pos hov]
    rfl
  · rw [Vec2.distance_add_sub, hoff2, Vec2.length_mul_scalar, hu, one_mul, abs_of_nonneg hr]
  · show ((a.position + b.position) / (2 : ℝ)
          + ((a.position - b.position).normalize * (a.radius + b.radius)) / (2 : ℝ))
        + ((a.position + b.position) / (2 : ℝ)
          - ((a.position - b.position).normalize * (a.radius + b.radius)) / (2 : ℝ))
        = a.position + b.position
    ext <;> simp

/-- Witness for C4: the spec's example scenario — two bodies of radius
10 with centres 15 apart end up exactly 20 apart, symmetric about the
original midpoint, after one pass. -/
theorem collide_pair_witness :
    Vec2.distance
      ((((⟨0, 0⟩ : Vec2) + (⟨15, 0⟩ : Vec2)) / (2 : ℝ))
        + ((((⟨0, 0⟩ : Vec2) - (⟨15, 0⟩ : Vec2)).normalize * ((10 : ℝ) + 10)) / (2 : ℝ)))
      ((((⟨0, 0⟩ : Vec2) + (⟨15, 0⟩ : Vec2)) / (2 : ℝ))
        - ((((⟨0, 0⟩ : Vec2) - (⟨15, 0⟩ : Vec2)).normalize * ((10 : ℝ) + 10)) / (2 : ℝ)))
      = 10 + 10 :=
  (collide_pair ⟨⟨0, 0⟩, ⟨0, 0⟩, 10, (0, 0, 0)⟩ ⟨⟨15, 0⟩, ⟨15, 0⟩, 10, (0, 0, 0)⟩
    (fun h => by
      have := congrArg Vec2.x h
      norm_num at this)
    (by norm_num [Vec2.distance_squared, Vec2.length_squared])
    (by norm_num)).2.1

/-! ## Integration -/

/-- Claim C5: the integration phase of a tick sends each body with
position `p` and previous position `q` to position
`2p - q + (0, GRAVITY * TICK_DURATION^2)` and previous position `p`,
independently for every body, and the relaxation passes of the tick run
only after the whole integration pass. -/
theorem integrate_verlet (centre : Vec2) (cs : List Circle) :
    integrate cs = cs.map (fun c =>
      { position := (2 : ℝ) • c.position - c.last_position + ⟨0, GRAVITY * TICK_DURATION ^ 2⟩,
        last_position := c.position, radius := c.radius, colour := c.colour })
    ∧ tick centre cs = (relax centre)^[REPETIIONS] (integrate cs) := by
  constructor
  · simp only [integrate]
    apply List.map_congr_left
    intro c _
    ext <;> simp [Circle.integrate, TICK_GRAVITY] <;> ring
  · rfl

/-! ## Determinism of ticks -/

/-- Claim C7: ticking is a pure, deterministic function of the body
list — identical body lists run through the same number of ticks give
identical results. -/
theorem tick_deterministic (centre : Vec2) (cs₁ cs₂ : List Circle) (n : ℕ) (h : cs₁ = cs₂) :
    (tick centre)^[n] cs₁ = (tick centre)^[n] cs₂ := by rw [h]

/-- Witness for C7. -/
theorem tick_deterministic_witness :
    (tick 0)^[1] [centreBody] = (tick 0)^[1] [centreBody] :=
  tick_deterministic 0 [centreBody] [centreBody] 1 rfl

/-! ## Degenerate collision (identical centres) -/

/-- Claim C8: for an overlapping pair, the checked collision step fails
(the zero-length direction cannot be normalized, i.e. the `f64` code
produces non-finite positions) exactly when the centres coincide, and
succeeds whenever the centres are distinct. -/
theorem collide_degenerate (a b : Circle)
    (hov : a.position.distance_squared b.position < (a.radius + b.radius) * (a.radius + b.radius)) :
    (a.position = b.position → collideStepChecked a b = none)
    ∧ (a.position ≠ b.position → (collideStepChecked a b).isSome = true) := by
  constructor
  · intro heq
    simp only [collideStepChecked]
    rw [if_pos hov]
    have hn : (a.position - b.position).normalizeChecked = none := by
      simp only [Vec2.normalizeChecked]
      rw [if_pos ((Vec2.sub_eq_zero_iff _ _).mpr heq)]
    rw [hn]
  · intro hne
    simp only [collideStepChecked]
    rw [if_pos hov]
    have hn : (a.position - b.position).normalizeChecked
        = some (a.position - b.position).normalize := by
      simp only [Vec2.normalizeChecked]
      rw [if_neg (fun h0 => hne ((Vec2.sub_eq_zero_iff _ _).mp h0))]
    rw [hn]
    rfl

/-- Witness for C8: two overlapping bodies sharing a centre make the
checked collision step fail. -/
theorem collide_degenerate_witness :
    collideStepChecked ⟨⟨0, 0⟩, ⟨0, 0⟩, 10, (0, 0, 0)⟩ ⟨⟨0, 0⟩, ⟨0, 0⟩, 10, (0, 0, 0)⟩ = none :=
  (collide_degenerate ⟨⟨0, 0⟩, ⟨0, 0⟩, 10, (0, 0, 0)⟩ ⟨⟨0, 0⟩, ⟨0, 0⟩, 10, (0, 0, 0)⟩
    (by norm_num [Vec2.distance_squared, Vec2.length_squared])).1 rfl

/-! ## Clear -/

theorem tick_nil (centre : Vec2) : tick centre [] = [] := by
  simp only [tick, integrate, List.map_nil]
  exact Function.iterate_fixed rfl REPETIIONS

theorem removeLoop_of_le (mouse : Vec2) (cs : List Circle) (i : ℕ) (h : cs.length ≤ i) :
    removeLoop mouse cs i = cs := by
  unfold removeLoop
  rw [dif_neg (by omega)]

theorem update_clear (centre : Vec2) (s : State) (dt : ℝ) (inp : Inputs) (u1 u2 : ℝ)
    (colour : ℕ × ℕ × ℕ) (hc : inp.clear = true) (hl : inp.lastClear = false)
    (hs : inp.leftMouse = false) : (update centre s dt inp u1 u2 colour).circles = [] := by
  have hrm : removeLoop inp.mouse [] 0 = [] := removeLoop_of_le _ _ _ (by simp)
  simp [update, hc, hl, hs, hrm, Function.iterate_fixed (tick_nil centre)]

/-- Claim C9: a clear edit empties the body list unconditionally, and a
second clear on the resulting state (with no intervening spawn) leaves
it empty again. -/
theorem clear_empties (centre₁ centre₂ : Vec2) (s : State) (dt₁ dt₂ : ℝ) (i₁ i₂ : Inputs)
    (u₁ u₂ v₁ v₂ : ℝ) (col₁ col₂ : ℕ × ℕ × ℕ)
    (h₁c : i₁.clear = true) (h₁l : i₁.lastClear = false) (h₁s : i₁.leftMouse = false)
    (h₂c : i₂.clear = true) (h₂l : i₂.lastClear = false) (h₂s : i₂.leftMouse = false) :
    (update centre₁ s dt₁ i₁ u₁ u₂ col₁).circles = []
    ∧ (update centre₂ (update centre₁ s dt₁ i₁ u₁ u₂ col₁) dt₂ i₂ v₁ v₂ col₂).circles = [] :=
  ⟨update_clear centre₁ s dt₁ i₁ u₁ u₂ col₁ h₁c h₁l h₁s,
   update_clear centre₂ _ dt₂ i₂ v₁ v₂ col₂ h₂c h₂l h₂s⟩

/-! ## Spawn -/

theorem if_lt_min (a u : ℝ) : (if a < u then a else u) = min u a := by
  rw [min_def]
  by_cases h : a < u
  · rw [if_pos h, if_neg (not_le.mpr h)]
  · rw [if_neg h, if_pos (not_lt.mp h)]

theorem spawnFold_eq_min (mouse : Vec2) (cs : List Circle) :
    ∀ b : ℝ, cs.foldl
        (fun upper c => if c.position.distance mouse - c.radius < upper
          then c.position.distance mouse - c.radius else upper) b
      = cs.foldl (fun u c => min u (c.position.distance mouse - c.radius)) b := by
  simp [if_lt_min]

theorem foldl_min_le_init (f : Circle → ℝ) (cs : List Circle) :
    ∀ b : ℝ, cs.foldl (fun u c => min u (f c)) b ≤ b := by
  induction cs with
  | nil => intro b; simp
  | cons c cs ih =>
      intro b
      simp only [List.foldl_cons]
      exact le_trans (ih _) (min_le_left _ _)

theorem foldl_min_le_mem (f : Circle → ℝ) (cs : List Circle) :
    ∀ (b : ℝ) (c : Circle), c ∈ cs → cs.foldl (fun u x => min u (f x)) b ≤ f c := by
  induction cs with
  | nil => intro b c hc; exact absurd hc (List.not_mem_nil c)
  | cons x cs ih =>
      intro b c hc
      simp only [List.foldl_cons]
      rcases List.mem_cons.mp hc with rfl | hmem
      · exact le_trans (foldl_min_le_init f cs _) (min_le_right _ _)
      · exact ih _ c hmem

theorem min_foldl_comm (f : Circle → ℝ) (cs : List Circle) :
    ∀ x b : ℝ, min x (cs.foldl (fun u c => min u (f c)) b)
      = cs.foldl (fun u c => min u (f c)) (min x b) := by
  induction cs with
  | nil => intro x b; rfl
  | cons c cs ih =>
      intro x b
      simp only [List.foldl_cons]
      rw [ih x (min b (f c)), ← min_assoc]

theorem spawnUpper_eq (centre : Vec2) (cs : List Circle) (mouse : Vec2) :
    spawnUpper centre cs mouse
      = min (cs.foldl (fun u c => min u (c.position.distance mouse - c.radius)) LARGEST_RADIUS)
          (OUTER_RADIUS - centre.distance mouse) := by
  simp only [spawnUpper, spawnFold_eq_min, if_lt_min]

theorem spawnStep_eq (centre : Vec2) (cs : List Circle) (mouse : Vec2) (u1 u2 : ℝ)
    (colour : ℕ × ℕ × ℕ) :
    spawnStep centre cs mouse u1 u2 colour
      = if SMALLEST_RADIUS ≤ spawnUpper centre cs mouse
        then cs ++ [Circle.new mouse (spawnRadius centre cs mouse u1 u2) colour]
        else cs := rfl

theorem specCappedRadius_eq (centre : Vec2) (cs : List Circle) (mouse : Vec2) (u1 u2 : ℝ)
    (hm : max u1 u2 ≤ 1) :
    specCappedRadius centre cs mouse u1 u2
      = min (SMALLEST_RADIUS + max u1 u2 * (LARGEST_RADIUS - SMALLEST_RADIUS))
          (spawnUpper centre cs mouse) := by
  have hr0u : SMALLEST_RADIUS + max u1 u2 * (LARGEST_RADIUS - SMALLEST_RADIUS)
      ≤ LARGEST_RADIUS := by
    simp only [SMALLEST_RADIUS, LARGEST_RADIUS]
    nlinarith
  rw [specCappedRadius, spawnUpper_eq]
  have hle : min (SMALLEST_RADIUS + max u1 u2 * (LARGEST_RADIUS - SMALLEST_RADIUS))
      (OUTER_RADIUS - centre.distance mouse) ≤ LARGEST_RADIUS :=
    le_trans (min_le_left _ _) hr0u
  have hbase : min (SMALLEST_RADIUS + max u1 u2 * (LARGEST_RADIUS - SMALLEST_RADIUS))
      (OUTER_RADIUS - centre.distance mouse)
      = min (min (SMALLEST_RADIUS + max u1 u2 * (LARGEST_RADIUS - SMALLEST_RADIUS))
          (OUTER_RADIUS - centre.distance mouse)) LARGEST_RADIUS := (min_eq_left hle).symm
  rw [hbase, ← min_foldl_comm, min_assoc,
    min_comm (OUTER_RADIUS - centre.distance mouse)]

/-- Claim C3: the spawn edit computes the candidate radius from the two
uniform draws, caps it at every existing body's clearance and at the
arena clearance, creates a body at the cursor with the capped radius
exactly when that radius is still at least `SMALLEST_RADIUS` (the capped
radius then lies in `[SMALLEST_RADIUS, LARGEST_RADIUS]`), and is a no-op
whenever the cursor lies strictly inside an existing body. -/
theorem spawn_spec (centre : Vec2) (cs : List Circle) (mouse : Vec2) (u1 u2 : ℝ)
    (colour : ℕ × ℕ × ℕ) (h1 : 0 ≤ u1) (h2 : u1 < 1) (h3 : 0 ≤ u2) (h4 : u2 < 1) :
    (spawnStep centre cs mouse u1 u2 colour
      = if SMALLEST_RADIUS ≤ specCappedRadius centre cs mouse u1 u2
        then cs ++ [Circle.new mouse (specCappedRadius centre cs mouse u1 u2) colour]
        else cs)
    ∧ (SMALLEST_RADIUS ≤ specCappedRadius centre cs mouse u1 u2
        → specCappedRadius centre cs mouse u1 u2 ≤ LARGEST_RADIUS)
    ∧ ((∃ b ∈ cs, b.position.distance mouse < b.radius)
        → spawnStep centre cs mouse u1 u2 colour = cs) := by
  have hm0 : 0 ≤ max u1 u2 := le_trans h1 (le_max_left u1 u2)
  have hm1 : max u1 u2 ≤ 1 := le_of_lt (max_lt h2 h4)
  have hr0l : SMALLEST_RADIUS
      ≤ SMALLEST_RADIUS + max u1 u2 * (LARGEST_RADIUS - SMALLEST_RADIUS) := by
    simp only [SMALLEST_RADIUS, LARGEST_RADIUS]
    nlinarith
  have hr0u : SMALLEST_RADIUS + max u1 u2 * (LARGEST_RADIUS - SMALLEST_RADIUS)
      ≤ LARGEST_RADIUS := by
    simp only [SMALLEST_RADIUS, LARGEST_RADIUS]
    nlinarith
  have hcap := specCappedRadius_eq centre cs mouse u1 u2 hm1
  have hiff : SMALLEST_RADIUS ≤ spawnUpper centre cs mouse
      ↔ SMALLEST_RADIUS ≤ specCappedRadius centre cs mouse u1 u2 := by
    rw [hcap]
    constructor
    · intro h
      exact le_min hr0l h
    · intro h
      exact le_trans h (min_le_right _ _)
  refine ⟨?_, ?_, ?_⟩
  · rw [spawnStep_eq]
    by_cases hc : SMALLEST_RADIUS ≤ spawnUpper centre cs mouse
    · rw [if_pos hc, if_pos (hiff.mp hc), hcap]
      rfl
    · rw [if_neg hc, if_neg fun h => hc (hiff.mpr h)]
  · intro _
    rw [hcap]
    exact le_trans (min_le_left _ _) hr0u
  · rintro ⟨b, hb, hlt⟩
    rw [spawnStep_eq]
    have hF : spawnUpper centre cs mouse ≤ b.position.distance mouse - b.radius := by
      rw [spawnUpper_eq]
      exact le_trans (min_le_left _ _)
        (foldl_min_le_mem (fun c => c.position.distance mouse - c.radius) cs _ b hb)
    have : ¬ SMALLEST_RADIUS ≤ spawnUpper centre cs mouse := by
      simp only [SMALLEST_RADIUS]
      intro h
      linarith
    rw [if_neg this]

/-- Witness for C3: spawning at the centre of an empty arena. -/
theorem spawn_spec_witness :
    (spawnStep 0 [] 0 0 0 (0, 0, 0)
      = if SMALLEST_RADIUS ≤ specCappedRadius 0 [] 0 0 0
        then [] ++ [Circle.new 0 (specCappedRadius 0 [] 0 0 0) (0, 0, 0)]
        else [])
    ∧ (SMALLEST_RADIUS ≤ specCappedRadius 0 [] 0 0 0
        → specCappedRadius 0 [] 0 0 0 ≤ LARGEST_RADIUS)
    ∧ ((∃ b ∈ ([] : List Circle), b.position.distance 0 < b.radius)
        → spawnStep 0 [] 0 0 0 (0, 0, 0) = []) :=
  spawn_spec 0 [] 0 0 0 (0, 0, 0) le_rfl one_pos le_rfl one_pos

/-- Claim C10: a successful spawn appends exactly one body whose radius
fits every clearance — it does not overlap any pre-existing body, it
respects arena containment, and it starts with zero velocity
(`position = last_position`). -/
theorem spawn_clearance (centre : Vec2) (cs : List Circle) (mouse : Vec2) (u1 u2 : ℝ)
    (colour : ℕ × ℕ × ℕ) (b : Circle) (hb : b ∈ cs)
    (h : SMALLEST_RADIUS ≤ spawnUpper centre cs mouse) :
    spawnStep centre cs mouse u1 u2 colour
      = cs ++ [Circle.new mouse (spawnRadius centre cs mouse u1 u2) colour]
    ∧ spawnRadius centre cs mouse u1 u2 + b.radius ≤ b.position.distance mouse
    ∧ centre.distance mouse ≤ OUTER_RADIUS - spawnRadius centre cs mouse u1 u2
    ∧ (Circle.new mouse (spawnRadius centre cs mouse u1 u2) colour).position
      = (Circle.new mouse (spawnRadius centre cs mouse u1 u2) colour).last_position := by
  have hup : spawnRadius centre cs mouse u1 u2 ≤ spawnUpper centre cs mouse :=
    min_le_right _ _
  refine ⟨?_, ?_, ?_, rfl⟩
  · rw [spawnStep_eq, if_pos h]
  · have hF : spawnUpper centre cs mouse ≤ b.position.distance mouse - b.radius := by
      rw [spawnUpper_eq]
      exact le_trans (min_le_left _ _)
        (foldl_min_le_mem (fun c => c.position.distance mouse - c.radius) cs _ b hb)
    linarith
  · have hA : spawnUpper centre cs mouse ≤ OUTER_RADIUS - centre.distance mouse := by
      rw [spawnUpper_eq]
      exact min_le_right _ _
    linarith

theorem distance_farBody : Vec2.distance (⟨100, 0⟩ : Vec2) 0 = 100 := by
  have h : ((⟨100, 0⟩ : Vec2) - 0).length_squared = 100 * 100 := by
    norm_num [Vec2.length_squared]
  rw [Vec2.distance, Vec2.length, h, Real.sqrt_mul_self (by norm_num : (0 : ℝ) ≤ 100)]

theorem distance_zero_zero : Vec2.distance (0 : Vec2) 0 = 0 := by
  have h : ((0 : Vec2) - 0).length_squared = 0 := by
    norm_num [Vec2.length_squared]
  rw [Vec2.distance, Vec2.length, h, Real.sqrt_zero]

theorem spawnUpper_farBody : spawnUpper 0 [farBody] 0 = 30 := by
  rw [spawnUpper_eq]
  simp only [List.foldl_cons, List.foldl_nil, farBody]
  rw [distance_farBody, distance_zero_zero]
  norm_num [LARGEST_RADIUS, OUTER_RADIUS, min_def]

/-- Witness for C10: spawning at the origin next to a distant body. -/
theorem spawn_clearance_witness :
    spawnStep 0 [farBody] 0 0 0 (0, 0, 0)
      = [farBody] ++ [Circle.new 0 (spawnRadius 0 [farBody] 0 0 0) (0, 0, 0)]
    ∧ spawnRadius 0 [farBody] 0 0 0 + farBody.radius ≤ farBody.position.distance 0
    ∧ Vec2.distance 0 0 ≤ OUTER_RADIUS - spawnRadius 0 [farBody] 0 0 0
    ∧ (Circle.new 0 (spawnRadius 0 [farBody] 0 0 0) (0, 0, 0)).position
      = (Circle.new 0 (spawnRadius 0 [farBody] 0 0 0) (0, 0, 0)).last_position :=
  spawn_clearance 0 [farBody] 0 0 0 (0, 0, 0) farBody (List.mem_singleton.mpr rfl)
    (by rw [spawnUpper_farBody]; norm_num [SMALLEST_RADIUS])

/-! ## Containment -/

theorem containCircle_radius (centre : Vec2) (c : Circle) :
    (containCircle centre c).radius = c.radius := by
  simp only [containCircle]
  split <;> rfl

theorem contain_distance (centre : Vec2) (c : Circle) (h : c.radius ≤ OUTER_RADIUS) :
    (containCircle centre c).position.distance centre
      ≤ OUTER_RADIUS - (containCircle centre c).radius := by
  have hmax : 0 ≤ OUTER_RADIUS - c.radius := by linarith
  rw [containCircle_radius]
  simp only [containCircle]
  split
  next hcond =>
    have hne : c.position - centre ≠ 0 := by
      intro h0
      rw [h0] at hcond
      simp [Vec2.length_squared] at hcond
      nlinarith
    have heq : ((c.position - centre).normalize * (OUTER_RADIUS - c.radius)
        + centre).distance centre
        = ((c.position - centre).normalize * (OUTER_RADIUS - c.radius)).length := by
      rw [Vec2.distance_eq_length_sub]
      congr 1
      ext <;> simp
    simp only [heq]
    rw [Vec2.length_mul_scalar, Vec2.length_normalize _ hne, one_mul, abs_of_nonneg hmax]
  next hcond =>
    have h2 : (c.position - centre).length_squared
        ≤ (OUTER_RADIUS - c.radius) * (OUTER_RADIUS - c.radius) := le_of_not_lt hcond
    rw [Vec2.distance_eq_length_sub, Vec2.length]
    calc Real.sqrt (c.position - centre).length_squared
        ≤ Real.sqrt ((OUTER_RADIUS - c.radius) * (OUTER_RADIUS - c.radius)) :=
          Real.sqrt_le_sqrt h2
      _ = |OUTER_RADIUS - c.radius| := Real.sqrt_mul_self_eq_abs _
      _ = OUTER_RADIUS - c.radius := abs_of_nonneg hmax

theorem mem_pairs (n : ℕ) (p : ℕ × ℕ) (h : p ∈ pairs n) : p.1 < n ∧ p.2 < n := by
  simp only [pairs, List.mem_flatMap, List.mem_map] at h
  obtain ⟨a, ha, b, hb, rfl⟩ := h
  exact ⟨List.mem_range.mp ha, List.mem_range.mp (List.mem_of_mem_drop hb)⟩

theorem collideStep_length (cs : List Circle) (i j : ℕ) :
    (collideStep cs i j).length = cs.length := by
  simp only [collideStep]
  split <;> simp

theorem collideStep_radii (P : ℝ → Prop) (cs : List Circle) (i j : ℕ)
    (hi : i < cs.length) (hj : j < cs.length) (h : ∀ c ∈ cs, P c.radius) :
    ∀ c ∈ collideStep cs i j, P c.radius := by
  intro c hc
  simp only [collideStep] at hc
  split at hc
  · rcases List.mem_or_eq_of_mem_set hc with hc1 | rfl
    · rcases List.mem_or_eq_of_mem_set hc1 with hc2 | rfl
      · exact h c hc2
      · show P (cs.getD i default).radius
        rw [List.getD_eq_getElem cs default hi]
        exact h _ (List.getElem_mem hi)
    · show P (cs.getD j default).radius
      rw [List.getD_eq_getElem cs default hj]
      exact h _ (List.getElem_mem hj)
  · exact h c hc

theorem collideFold_radii (P : ℝ → Prop) (l : List (ℕ × ℕ)) :
    ∀ cs : List Circle, (∀ p ∈ l, p.1 < cs.length ∧ p.2 < cs.length) →
      (∀ c ∈ cs, P c.radius) →
      ∀ c ∈ l.foldl (fun cs p => collideStep cs p.1 p.2) cs, P c.radius := by
  induction l with
  | nil => intro cs _ h c hc; exact h c hc
  | cons p l ih =>
      intro cs hl h
      simp only [List.foldl_cons]
      apply ih
      · intro q hq
        rw [collideStep_length]
        exact hl q (List.mem_cons_of_mem p hq)
      · exact collideStep_radii P cs p.1 p.2 (hl p (List.mem_cons_self p l)).1
          (hl p (List.mem_cons_self p l)).2 h

theorem collidePass_radii (P : ℝ → Prop) (cs : List Circle) (h : ∀ c ∈ cs, P c.radius) :
    ∀ c ∈ collidePass cs, P c.radius := by
  apply collideFold_radii P (pairs cs.length) cs _ h
  intro p hp
  exact mem_pairs cs.length p hp

theorem containPass_radii (P : ℝ → Prop) (centre : Vec2) (cs : List Circle)
    (h : ∀ c ∈ cs, P c.radius) : ∀ c ∈ containPass centre cs, P c.radius := by
  intro c hc
  simp only [containPass, List.mem_map] at hc
  obtain ⟨c₀, hc₀, rfl⟩ := hc
  rw [containCircle_radius]
  exact h c₀ hc₀

theorem integrate_radii (P : ℝ → Prop) (cs : List Circle) (h : ∀ c ∈ cs, P c.radius) :
    ∀ c ∈ integrate cs, P c.radius := by
  intro c hc
  simp only [integrate, List.mem_map] at hc
  obtain ⟨c₀, hc₀, rfl⟩ := hc
  exact h c₀ hc₀

theorem relax_radii (P : ℝ → Prop) (centre : Vec2) (cs : List Circle)
    (h : ∀ c ∈ cs, P c.radius) : ∀ c ∈ relax centre cs, P c.radius :=
  containPass_radii P centre _ (collidePass_radii P cs h)

theorem iterate_relax_radii (P : ℝ → Prop) (centre : Vec2) (n : ℕ) :
    ∀ cs : List Circle, (∀ c ∈ cs, P c.radius) →
      ∀ c ∈ (relax centre)^[n] cs, P c.radius := by
  induction n with
  | zero => intro cs h; exact h
  | succ n ih =>
      intro cs h
      rw [Function.iterate_succ_apply]
      exact ih _ (relax_radii P centre cs h)

theorem relax_contained (centre : Vec2) (cs : List Circle)
    (h : ∀ c ∈ cs, c.radius ≤ OUTER_RADIUS) :
    ∀ c ∈ relax centre cs, c.position.distance centre ≤ OUTER_RADIUS - c.radius := by
  intro c hc
  simp only [relax, containPass, List.mem_map] at hc
  obtain ⟨c₀, hc₀, rfl⟩ := hc
  exact contain_distance centre c₀
    (collidePass_radii (fun r => r ≤ OUTER_RADIUS) cs h c₀ hc₀)

/-- Claim C1: after any relaxation pass of a tick (in particular after
the tick completes), every body lies within `OUTER_RADIUS - radius` of
the arena centre. -/
theorem tick_containment (centre : Vec2) (cs : List Circle)
    (hB : ∀ b ∈ cs, b.radius ≤ OUTER_RADIUS) (k : ℕ) (hk : 1 ≤ k)
    (c c' : Circle) (hc : c ∈ (relax centre)^[k] (integrate cs))
    (hc' : c' ∈ tick centre cs) :
    c.position.distance centre ≤ OUTER_RADIUS - c.radius
    ∧ c'.position.distance centre ≤ OUTER_RADIUS - c'.radius := by
  have main : ∀ m : ℕ, ∀ d ∈ (relax centre)^[m + 1] (integrate cs),
      d.position.distance centre ≤ OUTER_RADIUS - d.radius := by
    intro m d hd
    rw [Function.iterate_succ_apply'] at hd
    exact relax_contained centre _
      (iterate_relax_radii (fun r => r ≤ OUTER_RADIUS) centre m _
        (integrate_radii (fun r => r ≤ OUTER_RADIUS) _ hB)) d hd
  obtain ⟨k', rfl⟩ : ∃ k', k = k' + 1 := ⟨k - 1, by omega⟩
  exact ⟨main k' c hc, main 3 c' hc'⟩

theorem integrate_centreBody : integrate [centreBody] = [centreBodyTicked] := by
  simp only [integrate, List.map_cons, List.map_nil]
  congr 1
  ext <;> simp [Circle.integrate, centreBody, centreBodyTicked]

theorem relax_centreBodyTicked : relax 0 [centreBodyTicked] = [centreBodyTicked] := by
  have hpass : collidePass [centreBodyTicked] = [centreBodyTicked] := rfl
  have hcond : ¬ ((centreBodyTicked.position - (0 : Vec2)).length_squared
      > (OUTER_RADIUS - centreBodyTicked.radius) * (OUTER_RADIUS - centreBodyTicked.radius)) := by
    norm_num [centreBodyTicked, Vec2.length_squared, OUTER_RADIUS, TICK_GRAVITY,
      TICK_DURATION, GRAVITY, TPS]
  simp only [relax, hpass, containPass, List.map_cons, List.map_nil]
  congr 1
  simp only [containCircle]
  rw [if_neg hcond]

/-- Witness for C1: a body resting at the arena centre is still
contained after the first relaxation pass and after the full tick. -/
theorem tick_containment_witness :
    Vec2.distance centreBodyTicked.position 0 ≤ OUTER_RADIUS - centreBodyTicked.radius
    ∧ Vec2.distance centreBodyTicked.position 0 ≤ OUTER_RADIUS - centreBodyTicked.radius := by
  refine tick_containment 0 [centreBody] ?_ 1 (by norm_num) centreBodyTicked centreBodyTicked ?_ ?_
  · intro b hb
    rw [List.mem_singleton] at hb
    subst hb
    norm_num [centreBody, OUTER_RADIUS]
  · rw [Function.iterate_one, integrate_centreBody, relax_centreBodyTicked]
    exact List.mem_singleton.mpr rfl
  · show centreBodyTicked ∈ (relax 0)^[REPETIIONS] (integrate [centreBody])
    rw [integrate_centreBody, Function.iterate_fixed relax_centreBodyTicked]
    exact List.mem_singleton.mpr rfl

/-! ## The fixed-timestep accumulator -/

theorem TICK_DURATION_pos : 0 < TICK_DURATION := by
  norm_num [TICK_DURATION, TPS]

theorem drain_of_lt (acc : ℝ) (h : acc < TICK_DURATION) : drain acc = (0, acc) := by
  unfold drain
  rw [dif_neg (not_le.mpr h)]

theorem drain_spec_aux :
    ∀ (n : ℕ) (acc : ℝ), 0 ≤ acc → Nat.floor (acc / TICK_DURATION) = n →
      drain acc = (n, acc - n * TICK_DURATION) := by
  intro n
  induction n with
  | zero =>
      intro acc h0 hfl
      have hlt : acc < TICK_DURATION := by
        have h1 : acc / TICK_DURATION < 1 := Nat.floor_eq_zero.mp hfl
        rwa [div_lt_one TICK_DURATION_pos] at h1
      rw [drain_of_lt acc hlt]
      simp
  | succ n ih =>
      intro acc h0 hfl
      have hT := TICK_DURATION_pos
      have h1 : (1 : ℝ) ≤ acc / TICK_DURATION := by
        have hn : 1 ≤ Nat.floor (acc / TICK_DURATION) := by omega
        have := (Nat.le_floor_iff (div_nonneg h0 hT.le)).mp hn
        exact_mod_cast this
      have hTacc : TICK_DURATION ≤ acc := (one_le_div hT).mp h1
      have hfl' : Nat.floor ((acc - TICK_DURATION) / TICK_DURATION) = n := by
        have hdiv : (acc - TICK_DURATION) / TICK_DURATION = acc / TICK_DURATION - 1 := by
          field_simp
        rw [hdiv]
        calc Nat.floor (acc / TICK_DURATION - 1)
            = Nat.floor (acc / TICK_DURATION - ((1 : ℕ) : ℝ)) := by norm_num
          _ = Nat.floor (acc / TICK_DURATION) - 1 := Nat.floor_sub_nat _ 1
          _ = n := by omega
      have h0' : 0 ≤ acc - TICK_DURATION := by linarith
      unfold drain
      rw [dif_pos hTacc]
      simp only [ih (acc - TICK_DURATION) h0' hfl']
      congr 1
      push_cast
      ring

theorem drain_spec (acc : ℝ) (h : 0 ≤ acc) :
    drain acc = (Nat.floor (acc / TICK_DURATION),
      acc - Nat.floor (acc / TICK_DURATION) * TICK_DURATION) :=
  drain_spec_aux (Nat.floor (acc / TICK_DURATION)) acc h rfl

theorem remainder_bounds (acc : ℝ) (h : 0 ≤ acc) :
    0 ≤ acc - Nat.floor (acc / TICK_DURATION) * TICK_DURATION
    ∧ acc - Nat.floor (acc / TICK_DURATION) * TICK_DURATION < TICK_DURATION := by
  have hT := TICK_DURATION_pos
  have h1 : ((Nat.floor (acc / TICK_DURATION) : ℝ)) ≤ acc / TICK_DURATION :=
    Nat.floor_le (div_nonneg h hT.le)
  have h2 : acc / TICK_DURATION < Nat.floor (acc / TICK_DURATION) + 1 :=
    Nat.lt_floor_add_one _
  constructor
  · have h3 := mul_le_mul_of_nonneg_right h1 hT.le
    rw [div_mul_cancel₀ acc (ne_of_gt hT)] at h3
    linarith
  · have h3 := mul_lt_mul_of_pos_right h2 hT
    rw [div_mul_cancel₀ acc (ne_of_gt hT)] at h3
    linarith [h3]

theorem totalDrain_aux (ds : List ℝ) :
    ∀ (n₀ : ℕ) (a : ℝ), 0 ≤ a → a < TICK_DURATION → (∀ d ∈ ds, 0 ≤ d) →
      ds.foldl (fun p d => ((drain (p.2 + d)).1 + p.1, (drain (p.2 + d)).2)) (n₀, a)
        = (n₀ + Nat.floor ((a + ds.sum) / TICK_DURATION),
           (a + ds.sum) - Nat.floor ((a + ds.sum) / TICK_DURATION) * TICK_DURATION) := by
  induction ds with
  | nil =>
      intro n₀ a h0 h1 _
      have hfl : Nat.floor (a / TICK_DURATION) = 0 :=
        Nat.floor_eq_zero.mpr ((div_lt_one TICK_DURATION_pos).mpr h1)
      simp [hfl]
  | cons d ds ih =>
      intro n₀ a h0 h1 hd
      have hT := TICK_DURATION_pos
      have hd0 : 0 ≤ d := hd d (List.mem_cons_self d ds)
      have had : 0 ≤ a + d := by linarith
      have hS : 0 ≤ ds.sum :=
        List.sum_nonneg fun e he => hd e (List.mem_cons_of_mem d he)
      obtain ⟨hr0, hr1⟩ := remainder_bounds (a + d) had
      simp only [List.foldl_cons, drain_spec (a + d) had]
      rw [ih (Nat.floor ((a + d) / TICK_DURATION) + n₀)
        ((a + d) - Nat.floor ((a + d) / TICK_DURATION) * TICK_DURATION) hr0 hr1
        (fun e he => hd e (List.mem_cons_of_mem d he))]
      have hsum : a + (d :: ds).sum
          = (((a + d) - Nat.floor ((a + d) / TICK_DURATION) * TICK_DURATION) + ds.sum)
            + Nat.floor ((a + d) / TICK_DURATION) * TICK_DURATION := by
        simp [List.sum_cons]
        ring
      have hdiv : ((((a + d) - Nat.floor ((a + d) / TICK_DURATION) * TICK_DURATION) + ds.sum)
            + Nat.floor ((a + d) / TICK_DURATION) * TICK_DURATION) / TICK_DURATION
          = (((a + d) - Nat.floor ((a + d) / TICK_DURATION) * TICK_DURATION) + ds.sum)
              / TICK_DURATION + Nat.floor ((a + d) / TICK_DURATION) := by
        field_simp
      have hfloor : Nat.floor ((a + (d :: ds).sum) / TICK_DURATION)
          = Nat.floor ((((a + d) - Nat.floor ((a + d) / TICK_DURATION) * TICK_DURATION)
              + ds.sum) / TICK_DURATION) + Nat.floor ((a + d) / TICK_DURATION) := by
        rw [hsum, hdiv, Nat.floor_add_nat (div_nonneg (by linarith) hT.le)]
      rw [hfloor]
      congr 1
      · omega
      · rw [hsum]
        push_cast
        ring

/-- Claim C2: over any sequence of nonnegative frame deltas the number
of ticks executed is the floor of the accumulated time over
`TICK_DURATION` and the final accumulator is the remainder; the
remainder always lies in `[0, TICK_DURATION)`, the exposed render
fraction lies in `[0, 1)`, and a following frame with `dt = 0` performs
zero ticks. -/
theorem accumulator_conservation (a₀ : ℝ) (ds : List ℝ) (cs : List Circle)
    (h0 : 0 ≤ a₀) (h1 : a₀ < TICK_DURATION) (hd : ∀ d ∈ ds, 0 ≤ d) :
    totalDrain a₀ ds
      = (Nat.floor ((ds.sum + a₀) / TICK_DURATION),
         (ds.sum + a₀) - Nat.floor ((ds.sum + a₀) / TICK_DURATION) * TICK_DURATION)
    ∧ 0 ≤ (totalDrain a₀ ds).2 ∧ (totalDrain a₀ ds).2 < TICK_DURATION
    ∧ 0 ≤ renderFraction { accumulator := (totalDrain a₀ ds).2, circles := cs }
    ∧ renderFraction { accumulator := (totalDrain a₀ ds).2, circles := cs } < 1
    ∧ (drain ((totalDrain a₀ ds).2 + 0)).1 = 0 := by
  have hsum0 : 0 ≤ ds.sum + a₀ := by
    have := List.sum_nonneg hd
    linarith
  have hmain : totalDrain a₀ ds
      = (Nat.floor ((ds.sum + a₀) / TICK_DURATION),
         (ds.sum + a₀) - Nat.floor ((ds.sum + a₀) / TICK_DURATION) * TICK_DURATION) := by
    have := totalDrain_aux ds 0 a₀ h0 h1 hd
    rw [totalDrain, this, add_comm a₀ ds.sum]
    simp
  obtain ⟨hr0, hr1⟩ := remainder_bounds (ds.sum + a₀) hsum0
  have hsnd : (totalDrain a₀ ds).2
      = (ds.sum + a₀) - Nat.floor ((ds.sum + a₀) / TICK_DURATION) * TICK_DURATION := by
    rw [hmain]
  refine ⟨hmain, ?_, ?_, ?_, ?_, ?_⟩
  · rw [hsnd]; exact hr0
  · rw [hsnd]; exact hr1
  · rw [renderFraction, hsnd]
    exact div_nonneg hr0 TICK_DURATION_pos.le
  · rw [renderFraction, hsnd]
    rw [div_lt_one TICK_DURATION_pos]
    exact hr1
  · rw [add_zero, drain_of_lt _ (by rw [hsnd]; exact hr1)]

/-- Witness for C2: a single zero-delta frame from an empty accumulator
performs zero ticks and leaves the accumulator at zero. -/
theorem accumulator_conservation_witness :
    totalDrain 0 [0]
      = (Nat.floor (([(0 : ℝ)].sum + 0) / TICK_DURATION),
         ([(0 : ℝ)].sum + 0) - Nat.floor (([(0 : ℝ)].sum + 0) / TICK_DURATION) * TICK_DURATION)
    ∧ 0 ≤ (totalDrain 0 [0]).2 ∧ (totalDrain 0 [0]).2 < TICK_DURATION
    ∧ 0 ≤ renderFraction { accumulator := (totalDrain 0 [0]).2, circles := [] }
    ∧ renderFraction { accumulator := (totalDrain 0 [0]).2, circles := [] } < 1
    ∧ (drain ((totalDrain 0 [0]).2 + 0)).1 = 0 :=
  accumulator_conservation 0 [0] [] le_rfl TICK_DURATION_pos
    (fun d hd => by rw [List.mem_singleton] at hd; rw [hd])

/-! ## Removal -/

theorem keep_iff (mouse : Vec2) (c : Circle) :
    keep mouse c = true ↔ ¬ c.point_within mouse := by
  simp [keep]

theorem swapRemove_perm : ∀ (cs : List Circle) (i : ℕ), i < cs.length →
    (swapRemove cs i).Perm (cs.eraseIdx i) := by
  intro cs
  induction cs with
  | nil => intro i h; simp at h
  | cons c t ih =>
      intro i h
      cases i with
      | zero =>
          cases t with
          | nil =>
              have hempty : swapRemove [c] 0 = [] := by simp [swapRemove]
              rw [hempty, List.eraseIdx_cons_zero]
          | cons x t' =>
              have hne : x :: t' ≠ [] := List.cons_ne_nil x t'
              have hgetD : (c :: x :: t').getD ((c :: x :: t').length - 1) default
                  = (x :: t').getLast hne := by
                have hlen : (c :: x :: t').length - 1 = t'.length + 1 := by simp
                rw [hlen, List.getD_cons_succ]
                have hlt : t'.length < (x :: t').length := by simp
                rw [List.getD_eq_getElem _ _ hlt, List.getLast_eq_getElem]
                congr 1
              rw [swapRemove, hgetD, List.set_cons_zero, List.dropLast_cons₂,
                List.eraseIdx_cons_zero]
              have h1 : ((x :: t').getLast hne :: (x :: t').dropLast).Perm
                  ((x :: t').dropLast ++ [(x :: t').getLast hne]) :=
                (List.perm_append_singleton _ _).symm
              rw [List.dropLast_append_getLast hne] at h1
              exact h1
      | succ i =>
          have hi : i < t.length := by simpa using h
          have htlen : 1 ≤ t.length := by omega
          have hgetD : (c :: t).getD ((c :: t).length - 1) default
              = t.getD (t.length - 1) default := by
            have hlen : (c :: t).length - 1 = (t.length - 1) + 1 := by
              simp
              omega
            rw [hlen, List.getD_cons_succ]
          rw [swapRemove, hgetD, List.set_cons_succ]
          have hset_ne : t.set i (t.getD (t.length - 1) default) ≠ [] := by
            apply List.length_pos.mp
            rw [List.length_set]
            omega
          rw [List.dropLast_cons_of_ne_nil hset_ne, List.eraseIdx_cons_succ]
          exact List.Perm.cons c (ih i hi)

theorem filter_eraseIdx_of_within (mouse : Vec2) (cs : List Circle) (i : ℕ)
    (h : i < cs.length) (hrm : cs[i].point_within mouse) :
    (cs.eraseIdx i).filter (keep mouse) = cs.filter (keep mouse) := by
  have hsplit : cs.take i ++ cs[i] :: cs.drop (i + 1) = cs := by
    rw [List.getElem_cons_drop cs i h, List.take_append_drop]
  rw [List.eraseIdx_eq_take_drop_succ]
  conv_rhs => rw [← hsplit]
  rw [List.filter_append, List.filter_append, List.filter_cons]
  have hk : ¬ keep mouse cs[i] = true := by
    rw [keep_iff, not_not]
    exact hrm
  rw [if_neg hk]

theorem removeLoop_done (mouse : Vec2) (cs : List Circle) (i : ℕ) (hle : cs.length ≤ i)
    (htake : ∀ c ∈ cs.take i, ¬ c.point_within mouse) :
    (removeLoop mouse cs i).Perm (cs.filter (keep mouse)) := by
  rw [removeLoop_of_le mouse cs i hle,
    List.filter_eq_self.mpr fun c hc =>
      (keep_iff mouse c).mpr (htake c (by rwa [List.take_of_length_le hle]))]

theorem removeLoop_perm_aux (mouse : Vec2) :
    ∀ (n : ℕ) (cs : List Circle) (i : ℕ), cs.length - i ≤ n →
      (∀ c ∈ cs.take i, ¬ c.point_within mouse) →
      (removeLoop mouse cs i).Perm (cs.filter (keep mouse)) := by
  intro n
  induction n with
  | zero =>
      intro cs i hn htake
      exact removeLoop_done mouse cs i (by omega) htake
  | succ n ihn =>
      intro cs i hn htake
      by_cases hi : i < cs.length
      · by_cases hpw : (cs.get ⟨i, hi⟩).point_within mouse
        · unfold removeLoop
          rw [dif_pos hi, if_pos hpw]
          have hlen : (swapRemove cs i).length = cs.length - 1 := by simp [swapRemove]
          have htakeswap : (swapRemove cs i).take i = cs.take i := by
            rw [swapRemove, List.dropLast_eq_take, List.length_set, List.take_take]
            have hmin : min i (cs.length - 1) = i := min_eq_left (by omega)
            rw [hmin, List.set_take]
            exact List.set_eq_of_length_le (by simp)
          have hperm1 : (removeLoop mouse (swapRemove cs i) i).Perm
              ((swapRemove cs i).filter (keep mouse)) := by
            apply ihn (swapRemove cs i) i (by omega)
            intro c hc
            rw [htakeswap] at hc
            exact htake c hc
          have hperm2 : ((swapRemove cs i).filter (keep mouse)).Perm
              ((cs.eraseIdx i).filter (keep mouse)) :=
            (swapRemove_perm cs i hi).filter (keep mouse)
          rw [filter_eraseIdx_of_within mouse cs i hi hpw] at hperm2
          exact hperm1.trans hperm2
        · unfold removeLoop
          rw [dif_pos hi, if_neg hpw]
          apply ihn cs (i + 1) (by omega)
          intro c hc
          rw [← List.take_concat_get cs i hi, List.concat_eq_append] at hc
          rcases List.mem_append.mp hc with hc1 | hc2
          · exact htake c hc1
          · rw [List.mem_singleton] at hc2
            subst hc2
            exact hpw
      · exact removeLoop_done mouse cs i (by omega) htake

theorem removeLoop_no_match (mouse : Vec2) :
    ∀ (n : ℕ) (cs : List Circle) (i : ℕ), cs.length - i ≤ n →
      (∀ c ∈ cs, ¬ c.point_within mouse) → removeLoop mouse cs i = cs := by
  intro n
  induction n with
  | zero =>
      intro cs i hn _
      exact removeLoop_of_le mouse cs i (by omega)
  | succ n ihn =>
      intro cs i hn h
      by_cases hi : i < cs.length
      · unfold removeLoop
        rw [dif_pos hi, if_neg (h _ (List.get_mem cs i hi))]
        exact ihn cs (i + 1) (by omega) h
      · exact removeLoop_of_le mouse cs i (by omega)

/-- Claim C6: the removal loop removes exactly the bodies that strictly
contain the cursor (the survivors, with their state untouched, are a
permutation of the filtered list), and it is the identity when no body
matches. -/
theorem removeAt_exact (mouse : Vec2) (cs : List Circle) :
    (removeLoop mouse cs 0).Perm (cs.filter (keep mouse))
    ∧ ((∀ c ∈ cs, ¬ c.point_within mouse) → removeLoop mouse cs 0 = cs) :=
  ⟨removeLoop_perm_aux mouse cs.length cs 0 (by omega) (by simp),
   fun h => removeLoop_no_match mouse cs.length cs 0 (by omega) h⟩

/-- Witness for C6: removing at the origin deletes the body containing
it and keeps the distant one; with only the distant body the call is a
no-op. -/
theorem removeAt_exact_witness :
    (removeLoop 0 [centreBody, farBody] 0).Perm
      (([centreBody, farBody]).filter (keep 0))
    ∧ removeLoop 0 [farBody] 0 = [farBody] := by
  constructor
  · exact (removeAt_exact 0 [centreBody, farBody]).1
  · apply (removeAt_exact 0 [farBody]).2
    intro c hc
    rw [List.mem_singleton] at hc
    subst hc
    rw [Circle.point_within]
    norm_num [farBody, Vec2.distance_squared, Vec2.length_squared]

/-- Witness for C9. -/
theorem clear_empties_witness :
    (update 0 { accumulator := 0, circles := [centreBody] } 0 clearFrame 0 0 (0, 0, 0)).circles = []
    ∧ (update 0 (update 0 { accumulator := 0, circles := [centreBody] } 0 clearFrame 0 0 (0, 0, 0))
        0 clearFrame 0 0 (0, 0, 0)).circles = [] :=
  clear_empties 0 0 _ 0 0 clearFrame clearFrame 0 0 0 0 (0, 0, 0) (0, 0, 0)
    rfl rfl rfl rfl rfl rfl

end Circles
